import Mathlib

/-!
Shallow embedding of the driver-monitoring core of this repository
(`app/hooks/useDriverMonitoring.ts` and `useSoundAnalysis.ts`) in Lean 4,
with theorems settling the specification claims about it.

Modelling conventions:
* JavaScript numbers are embedded as `ℚ`.  Where the code can produce a
  non-finite number (`NaN`/`Infinity`, e.g. from degenerate landmark
  geometry) and explicitly tests `Number.isFinite`, the value is embedded
  as `Option ℚ` with `none` standing for a non-finite value; arithmetic on
  such values propagates `none` (faithful here because all fusion
  components are nonnegative, so no `∞ - ∞` cancellation can occur).
* Timestamps (`Date.now()`, `performance.now()`) are `ℤ` resp. `ℚ`
  milliseconds.
* `Math.sqrt` has no exact counterpart in `ℚ`.  The source only ever
  *compares* a standard deviation against a nonnegative bound
  (`std(xs) ≤ b`, `v ≥ med + p·std`), so those comparisons are embedded by
  the equivalent squared comparisons (`var(xs) ≤ b²`, with the bounds
  nonnegative at every call site); the connection to the real square root
  is proved where a claim mentions the standard deviation itself.
-/

namespace DriverMonitoring

/-- `Math.max(0, Math.min(1, x))`, the clamp used throughout the hook. -/
def clamp01 (x : ℚ) : ℚ := max 0 (min 1 x)

/-- The binary status published by the fusion engine. -/
inductive Status where
  | DROWSY : Status
  | AWAKE : Status
deriving DecidableEq, Repr

/-! ### Configuration constants (lines 99-113 of `useDriverMonitoring.ts`) -/

def PERCLOS_WINDOW_MS : ℤ := 30000
def PERCLOS_ALERT : ℚ := 0.12
def CONTINUOUS_CLOSE_MS_ALERT : ℤ := 500
def LONG_BLINK_MS : ℤ := 250
def LONG_BLINK_MAX_MS : ℤ := 500
def SOUND_SUPPORT_WEIGHT : ℚ := 0.25
def SMOOTH_ALPHA : ℚ := 0.6
def W_EYES : ℚ := 0.8
def W_PERCLOS : ℚ := 0.5
def W_MAR : ℚ := 0.35
def W_HEAD : ℚ := 0.4

/-! ### Fusion engine (lines 468-505)

`jsWeightedSum` is the weighted sum `W_EYES*eyesInstant + ... + W_SOUND*soundComponent`
computed on JS numbers: a non-finite component makes the whole sum
non-finite (`none`).  `fusionRawScore` is the subsequent
`if (!Number.isFinite(s)) s = 0; s = Math.max(0, Math.min(1, s))`.
`emaStep` is `prevEma * (1 - SMOOTH_ALPHA) + raw * SMOOTH_ALPHA`. -/

def jsWeightedSum (eyes perclos mar head sound : Option ℚ) : Option ℚ :=
  match eyes, perclos, mar, head, sound with
  | some e, some p, some m, some h, some s =>
      some (W_EYES * e + W_PERCLOS * p + W_MAR * m + W_HEAD * h + SOUND_SUPPORT_WEIGHT * s)
  | _, _, _, _, _ => none

def fusionRawScore (s : Option ℚ) : ℚ :=
  clamp01 (s.getD 0)

def emaStep (prevEma raw : ℚ) : ℚ :=
  prevEma * (1 - SMOOTH_ALPHA) + raw * SMOOTH_ALPHA

/-- One fusion tick: raw weighted sum, finiteness guard, clamp, EMA smoothing. -/
def fusionTick (prevEma : ℚ) (eyes perclos mar head sound : Option ℚ) : ℚ :=
  emaStep prevEma (fusionRawScore (jsWeightedSum eyes perclos mar head sound))

/-- `isDrowsy = ema > 0.5`; `newStatus = isDrowsy ? "DROWSY" : "AWAKE"` (lines 505, 545). -/
def statusOf (score : ℚ) : Status :=
  if 1 / 2 < score then Status.DROWSY else Status.AWAKE

/-- Running the fusion engine over a sequence of per-tick component tuples,
starting from the initial smoothed score 0 (`emaRef` starts at 0). -/
def fusionRun (inputs : List (Option ℚ × Option ℚ × Option ℚ × Option ℚ × Option ℚ)) : ℚ :=
  inputs.foldl (fun sc i => fusionTick sc i.1 i.2.1 i.2.2.1 i.2.2.2.1 i.2.2.2.2) 0

/-- Iterating the EMA under a constant raw input `r` for `n` ticks from `s0`
(the smoothing recurrence of lines 495-498 in isolation). -/
def emaIter (r s0 : ℚ) : ℕ → ℚ
  | 0 => s0
  | n + 1 => emaStep (emaIter r s0 n) r

/-! ### Eye-closure state machine (lines 79-85, 103-104, 325-357)

`lastEyeStateRef` and `prevEyesClosed` always agree after a tick (the ref is
updated to the new classification exactly on a transition, and
`prevEyesClosed` is set to it unconditionally), so a single `closed` field
models both. -/

structure EyeState where
  closed : Bool
  lastChangeTs : ℤ
  blinkCount : ℕ
  blinkDetected : Bool
deriving DecidableEq, Repr

/-- Hysteresis classification (lines 325-327):
`prevEyesClosed.current ? EAR < EAR_OPEN : EAR < EAR_CLOSED`. -/
def classifyClosed (prevClosed : Bool) (ear earClosed earOpen : ℚ) : Bool :=
  if prevClosed then ear < earOpen else ear < earClosed

/-- One tick of the transition/blink logic (lines 329-355). -/
def eyeStep (st : EyeState) (ear : ℚ) (now : ℤ) (earClosed earOpen : ℚ) : EyeState :=
  let c := classifyClosed st.closed ear earClosed earOpen
  if c ≠ st.closed then
    let durationMs := now - st.lastChangeTs
    if st.closed then
      if LONG_BLINK_MS ≤ durationMs ∧ durationMs < LONG_BLINK_MAX_MS then
        { closed := c
          lastChangeTs := now
          blinkCount := st.blinkCount + 1
          blinkDetected := true }
      else
        { closed := c
          lastChangeTs := now
          blinkCount := st.blinkCount
          blinkDetected := st.blinkDetected }
    else
      { closed := c
        lastChangeTs := now
        blinkCount := st.blinkCount
        blinkDetected := false }
  else st

/-! ### PERCLOS window buffer (lines 359-371) -/

/-- `while (buf.length && buf[0].ts < now - PERCLOS_WINDOW_MS) buf.shift()`. -/
def pruneWindow (buf : List (ℤ × Bool)) (now : ℤ) : List (ℤ × Bool) :=
  buf.dropWhile (fun e => e.1 < now - PERCLOS_WINDOW_MS)

/-- Push `(now, closed)` then prune (lines 359-368). -/
def perclosStep (buf : List (ℤ × Bool)) (now : ℤ) (closed : Bool) : List (ℤ × Bool) :=
  pruneWindow (buf ++ [(now, closed)]) now

/-- `closedSum = buf.reduce((s, x) => s + x.closed, 0)` (line 369). -/
def closedSum (buf : List (ℤ × Bool)) : ℕ :=
  buf.foldl (fun s e => s + (if e.2 then 1 else 0)) 0

/-- `perclos = closedSum / Math.max(1, buf.length)` (lines 370-371). -/
def perclosRatio (buf : List (ℤ × Bool)) : ℚ :=
  (closedSum buf : ℚ) / (max 1 buf.length : ℕ)

/-! ### Calibration manager (lines 93-97, 111-113, 172-195) -/

structure CalibState where
  calibrating : Bool
  startTs : Option ℤ
  samples : List ℚ
  baselineEar : Option ℚ
  earClosedRef : ℚ
  earOpenRef : ℚ
  progress : ℚ
deriving DecidableEq, Repr

/-- `startCalibration` (lines 172-177). -/
def startCalibration (st : CalibState) (now : ℤ) : CalibState :=
  { st with samples := [], startTs := some now, calibrating := true, progress := 0 }

/-- `stopCalibration` (lines 178-195): with samples, derive thresholds from
the mean; without samples, leave thresholds alone; progress becomes 1 in
both branches. -/
def stopCalibration (st : CalibState) : CalibState :=
  if st.samples.length ≠ 0 then
    let avg := st.samples.sum / (st.samples.length : ℚ)
    let closedThr := max 0.12 (avg * 0.6)
    { st with
      calibrating := false
      startTs := none
      baselineEar := some avg
      earClosedRef := closedThr
      earOpenRef := max (closedThr + 0.04) (avg * 0.75)
      progress := 1 }
  else
    { st with calibrating := false, startTs := none, progress := 1 }

/-! ### Peak detection and periodicity (lines 118-170)

`median`, `mean` and the variance underlying `std` from lines 118-129.
`std l = Real.sqrt (varianceQ l)`; the source only compares `std` against
nonnegative bounds, embedded below as squared comparisons. -/

def medianQ (l : List ℚ) : ℚ :=
  let s := l.insertionSort (· ≤ ·)
  let m := l.length / 2
  if l.length % 2 = 1 then s.getD m 0 else (s.getD (m - 1) 0 + s.getD m 0) / 2

def meanQ (l : List ℚ) : ℚ := l.sum / (l.length : ℚ)

/-- The square of `std` (lines 123-129): `0` for an empty list, otherwise
the population variance. -/
def varianceQ (l : List ℚ) : ℚ :=
  if l.length = 0 then 0
  else (l.map (fun x => (x - meanQ l) ^ 2)).sum / (l.length : ℚ)

structure Peak where
  idx : ℕ
  t : ℤ
  v : ℚ
deriving DecidableEq, Repr

/-- `prominenceOk = s > 0 ? v >= med + prominenceStd * s : true` (line 148),
with `s = Real.sqrt varv` embedded by squaring (valid for the nonnegative
`prominenceStd` used at every call site, namely `1.0`):
`v ≥ med + p·√varv  ↔  med ≤ v ∧ p²·varv ≤ (v - med)²` when `varv > 0`. -/
def prominenceOk (v med varv pStd : ℚ) : Prop :=
  if 0 < varv then med ≤ v ∧ pStd ^ 2 * varv ≤ (v - med) ^ 2 else True

instance (v med varv pStd : ℚ) : Decidable (prominenceOk v med varv pStd) := by
  unfold prominenceOk; infer_instance

/-- Body of the `for` loop of `detectPeaks` (lines 142-151) at index `i`. -/
def peakFoldStep (values : List ℚ) (times : List ℤ) (minAmp : ℚ) (minSeparationMs : ℤ)
    (pStd : ℚ) (med varv : ℚ) (acc : List Peak) (i : ℕ) : List Peak :=
  let v := values.getD i 0
  if values.getD (i - 1) 0 < v ∧ values.getD (i + 1) 0 ≤ v then
    let t := times.getD i 0
    match acc.getLast? with
    | some last =>
        if t - last.t < minSeparationMs then acc
        else if prominenceOk v med varv pStd ∧ minAmp ≤ v then acc ++ [⟨i, t, v⟩]
        else acc
    | none =>
        if prominenceOk v med varv pStd ∧ minAmp ≤ v then acc ++ [⟨i, t, v⟩]
        else acc
  else acc

/-- `detectPeaks` (lines 131-153): loop `for (i = 1; i < values.length - 1; i++)`. -/
def detectPeaks (values : List ℚ) (times : List ℤ) (minAmp : ℚ) (minSeparationMs : ℤ)
    (pStd : ℚ) : List Peak :=
  if values.length = 0 then []
  else
    (List.range' 1 (values.length - 2)).foldl
      (peakFoldStep values times minAmp minSeparationMs pStd (medianQ values) (varianceQ values))
      []

/-- `intervals.push(peaks[i].t - peaks[i-1].t)` for `i = 1..` (lines 162-164). -/
def intervalsOf (peaks : List Peak) : List ℚ :=
  (peaks.zip peaks.tail).map (fun ab => ((ab.2.t - ab.1.t : ℤ) : ℚ))

/-- `evaluatePeriodicity` (lines 155-170).  The source condition is
`stdI <= maxIntervalStdMs && meanI >= 200 && meanI <= 2000` with
`stdI = Real.sqrt (varianceQ intervals)`; since `maxIntervalStdMs ≥ 0` at the
only call site (500), `stdI ≤ b` is embedded as `varianceQ ≤ b²`. -/
def evaluatePeriodicity (peaks : List Peak) (minPeaks : ℕ) (maxIntervalStdMs : ℚ) :
    Bool × List ℚ :=
  if peaks.length < minPeaks then (false, [])
  else
    let intervals := intervalsOf peaks
    let meanI := meanQ intervals
    if varianceQ intervals ≤ maxIntervalStdMs ^ 2 ∧ 200 ≤ meanI ∧ meanI ≤ 2000 then
      (true, intervals)
    else (false, intervals)

/-! ### Audio silence debounce (`useSoundAnalysis.ts`, `sampleAudio`, lines 200-289)

One audio sampling tick carries the values the silence logic depends on:
the sample time (`performance.now()`), the RMS loudness in dB and the
spectral variance of the linear magnitudes. -/

structure AudioSample where
  now : ℚ
  db : ℚ
  specVar : ℚ
deriving DecidableEq, Repr

/-- `currentlySilent = db < silenceDbThreshold && specVar < 1e-8` (lines 235-237). -/
def silentCond (dbThr : ℚ) (s : AudioSample) : Bool :=
  s.db < dbThr ∧ s.specVar < 1 / 100000000

structure SilenceState where
  silenceStart : Option ℚ
  isSilent : Bool
deriving DecidableEq, Repr

/-- The silence branch of `sampleAudio` (lines 260-275): while silent, the
start timestamp of the run is latched and `isSilent` is raised once
`now - start ≥ silenceSeconds*1000`; one non-silent sample clears both. -/
def silenceStep (silenceSeconds dbThr : ℚ) (st : SilenceState) (s : AudioSample) :
    SilenceState :=
  if silentCond dbThr s then
    let start := st.silenceStart.getD s.now
    if silenceSeconds * 1000 ≤ s.now - start then
      { silenceStart := some start, isSilent := true }
    else
      { silenceStart := some start, isSilent := st.isSilent }
  else
    { silenceStart := none, isSilent := false }

/-- Folding the silence logic over a run of audio samples from the initial
state (`silenceStartRef = null`, `isSilent = false`, lines 108 and 84). -/
def silenceRun (silenceSeconds dbThr : ℚ) (samples : List AudioSample) : SilenceState :=
  samples.foldl (silenceStep silenceSeconds dbThr) { silenceStart := none, isSilent := false }

/-- Invariant of the silence debounce: when a silent run is latched
(`silenceStart = some t`), a nonempty suffix of the processed samples is
entirely silent, starts at time `t`, and — whenever `isSilent` is raised —
spans at least `silenceSeconds*1000` milliseconds up to the last processed
sample. -/
def SilInv (silenceSeconds dbThr : ℚ) (processed : List AudioSample)
    (st : SilenceState) : Prop :=
  (st.silenceStart = none → st.isSilent = false) ∧
  (∀ t : ℚ, st.silenceStart = some t →
    ∃ p₁ p₂ : List AudioSample, processed = p₁ ++ p₂ ∧ p₂ ≠ []
      ∧ (∀ s ∈ p₂, silentCond dbThr s = true)
      ∧ p₂.head?.map AudioSample.now = some t
      ∧ (st.isSilent = true →
          ∃ lastS, p₂.getLast? = some lastS ∧ silenceSeconds * 1000 ≤ lastS.now - t))

/-! ### Persistence sending (`sendToServer`, lines 224-252)

The environment is modelled as a function giving the outcome of the `i`-th
`fetch` attempt: success (`res.ok`), an HTTP failure (`!res.ok`), an
`AbortError` (the in-flight request was superseded), or another network
error.  The embedding returns the result together with how many attempts
were made and the waits slept between attempts. -/

inductive AttemptOutcome where
  | ok : AttemptOutcome
  | httpFail : AttemptOutcome
  | abortError : AttemptOutcome
  | netError : AttemptOutcome
deriving DecidableEq, Repr

structure SendTrace where
  result : Bool
  attemptsMade : ℕ
  waits : List ℕ
deriving DecidableEq, Repr

/-- The retry loop of `sendToServer` (lines 232-251): `wait` starts at 300
and doubles after every failed attempt; `res.ok` returns `true` at once, an
`AbortError` returns `false` at once, anything else sleeps `wait` and
retries while attempts remain. -/
def sendLoop (outcome : ℕ → AttemptOutcome) : ℕ → ℕ → ℕ → SendTrace
  | _, _, 0 => { result := false, attemptsMade := 0, waits := [] }
  | i, wait, remaining + 1 =>
    match outcome i with
    | AttemptOutcome.ok => { result := true, attemptsMade := 1, waits := [] }
    | AttemptOutcome.abortError => { result := false, attemptsMade := 1, waits := [] }
    | AttemptOutcome.httpFail =>
        let t := sendLoop outcome (i + 1) (wait * 2) remaining
        { result := t.result, attemptsMade := t.attemptsMade + 1, waits := wait :: t.waits }
    | AttemptOutcome.netError =>
        let t := sendLoop outcome (i + 1) (wait * 2) remaining
        { result := t.result, attemptsMade := t.attemptsMade + 1, waits := wait :: t.waits }

/-- `sendToServer` (lines 224-252): missing driver id or an offline browser
short-circuit to `false` before any attempt; otherwise the loop runs with
the given attempt budget (default 3) and initial wait 300 ms. -/
def sendToServer (hasDriverId online : Bool) (outcome : ℕ → AttemptOutcome)
    (attempts : ℕ) : SendTrace :=
  if !hasDriverId then { result := false, attemptsMade := 0, waits := [] }
  else if !online then { result := false, attemptsMade := 0, waits := [] }
  else sendLoop outcome 0 300 attempts

/-! ### Concrete example inputs used in witnesses and counterexamples -/

/-- Four accepted peaks with inter-peak intervals 500 ms, 520 ms, 480 ms. -/
def fourPeaks : List Peak :=
  [⟨1, 0, 20⟩, ⟨5, 500, 20⟩, ⟨9, 1020, 20⟩, ⟨13, 1500, 20⟩]

/-- Nine window-buffer entries (one per second, the first three closed);
pushing a tenth open sample at `t = 9000` gives 10 samples with 3 closed. -/
def perclosExampleBuf : List (ℤ × Bool) :=
  [(0, true), (1000, true), (2000, true), (3000, false), (4000, false),
   (5000, false), (6000, false), (7000, false), (8000, false)]

/-- Three audio samples, all silent (−60 dB, zero spectral variance),
spanning exactly 5000 ms. -/
def silenceExample : List AudioSample :=
  [⟨0, -60, 0⟩, ⟨2500, -60, 0⟩, ⟨5000, -60, 0⟩]

/-- A calibration session holding ten EAR samples of 0.3 (mean 0.3). -/
def calibExample : CalibState :=
  { calibrating := true
    startTs := some 0
    samples := List.replicate 10 0.3
    baselineEar := none
    earClosedRef := 0.26
    earOpenRef := 0.30
    progress := 1 / 2 }

/-! ## Helper lemmas -/

theorem statusOf_drowsy_iff (x : ℚ) : statusOf x = Status.DROWSY ↔ 1 / 2 < x := by
  unfold statusOf
  split <;> simp_all

theorem statusOf_awake_iff (x : ℚ) : statusOf x = Status.AWAKE ↔ x ≤ 1 / 2 := by
  unfold statusOf
  split <;> simp_all

theorem clamp01_nonneg (x : ℚ) : 0 ≤ clamp01 x := le_max_left 0 _

theorem clamp01_le_one (x : ℚ) : clamp01 x ≤ 1 :=
  max_le (by norm_num) (min_le_left 1 x)

theorem emaStep_mem (prev raw : ℚ) (h0 : 0 ≤ prev) (h1 : prev ≤ 1)
    (r0 : 0 ≤ raw) (r1 : raw ≤ 1) : 0 ≤ emaStep prev raw ∧ emaStep prev raw ≤ 1 := by
  unfold emaStep SMOOTH_ALPHA
  constructor <;> nlinarith

/-! ## C1: weighted fusion, clamping, EMA smoothing, status threshold -/

/-- C1.  Per tick, with component values each in [0,1], the fusion engine
computes `raw = 0.8·eyes + 0.5·perclos + 0.35·mar + 0.4·head + 0.25·sound`
clamped to [0,1], smooths it as `score = prevScore·0.4 + raw·0.6`, and the
status is DROWSY iff the smoothed score is strictly greater than 0.5,
otherwise AWAKE. -/
theorem C1_fusion_formula (prev e p m h s : ℚ)
    (_he : 0 ≤ e ∧ e ≤ 1) (_hp : 0 ≤ p ∧ p ≤ 1) (_hm : 0 ≤ m ∧ m ≤ 1)
    (_hh : 0 ≤ h ∧ h ≤ 1) (_hs : 0 ≤ s ∧ s ≤ 1) :
    fusionTick prev (some e) (some p) (some m) (some h) (some s)
      = prev * 0.4 + clamp01 (0.8 * e + 0.5 * p + 0.35 * m + 0.4 * h + 0.25 * s) * 0.6
    ∧ (statusOf (fusionTick prev (some e) (some p) (some m) (some h) (some s))
        = Status.DROWSY
       ↔ 0.5 < fusionTick prev (some e) (some p) (some m) (some h) (some s))
    ∧ (statusOf (fusionTick prev (some e) (some p) (some m) (some h) (some s))
        = Status.AWAKE
       ↔ fusionTick prev (some e) (some p) (some m) (some h) (some s) ≤ 0.5) := by
  refine ⟨?_, ?_, ?_⟩
  · unfold fusionTick emaStep fusionRawScore jsWeightedSum
    unfold W_EYES W_PERCLOS W_MAR W_HEAD SOUND_SUPPORT_WEIGHT SMOOTH_ALPHA
    norm_num
  · rw [statusOf_drowsy_iff]
    norm_num
  · rw [statusOf_awake_iff]
    norm_num

/-- Witness for C1 at `prev = 0`, `eyes = 1`, `perclos = 1`, other
components 0: the formula instance and status equivalences hold there. -/
theorem C1_witness :
    fusionTick 0 (some 1) (some 1) (some 0) (some 0) (some 0)
      = 0 * 0.4 + clamp01 (0.8 * 1 + 0.5 * 1 + 0.35 * 0 + 0.4 * 0 + 0.25 * 0) * 0.6
    ∧ (statusOf (fusionTick 0 (some 1) (some 1) (some 0) (some 0) (some 0))
        = Status.DROWSY
       ↔ 0.5 < fusionTick 0 (some 1) (some 1) (some 0) (some 0) (some 0))
    ∧ (statusOf (fusionTick 0 (some 1) (some 1) (some 0) (some 0) (some 0))
        = Status.AWAKE
       ↔ fusionTick 0 (some 1) (some 1) (some 0) (some 0) (some 0) ≤ 0.5) :=
  C1_fusion_formula 0 1 1 0 0 0 (by norm_num) (by norm_num) (by norm_num)
    (by norm_num) (by norm_num)

/-! ## C2: blink classification window (corrected: the window is half-open) -/

/-- C2 counterexample.  A closed→open transition whose closed period lasted
exactly 500 ms lies within the claim's interval [250 ms, 500 ms], yet the
code does not increment the blink counter (the source tests
`durationMs < LONG_BLINK_MAX_MS`, strictly). -/
theorem C2_counterexample :
    (⟨true, 0, 0, false⟩ : EyeState).closed = true
    ∧ (eyeStep ⟨true, 0, 0, false⟩ 1 500 (13 / 50) (3 / 10)).closed = false
    ∧ LONG_BLINK_MS ≤ (500 : ℤ) - (⟨true, 0, 0, false⟩ : EyeState).lastChangeTs
    ∧ (500 : ℤ) - (⟨true, 0, 0, false⟩ : EyeState).lastChangeTs ≤ LONG_BLINK_MAX_MS
    ∧ (eyeStep ⟨true, 0, 0, false⟩ 1 500 (13 / 50) (3 / 10)).blinkCount
        = (⟨true, 0, 0, false⟩ : EyeState).blinkCount := by
  refine ⟨rfl, ?_, by decide, by decide, ?_⟩ <;>
    norm_num [eyeStep, classifyClosed, LONG_BLINK_MS, LONG_BLINK_MAX_MS]

/-- C2 (amended).  When the eye-closure state machine transitions
closed→open, a closed period whose duration lies in the half-open interval
[250 ms, 500 ms) increments the blink counter exactly once and raises the
transient blink flag; a duration below 250 ms or of at least 500 ms leaves
the counter unchanged. -/
theorem C2_blink_window (st : EyeState) (ear : ℚ) (now : ℤ) (earClosed earOpen : ℚ)
    (hclosed : st.closed = true)
    (hopens : classifyClosed st.closed ear earClosed earOpen = false) :
    ((LONG_BLINK_MS ≤ now - st.lastChangeTs ∧ now - st.lastChangeTs < LONG_BLINK_MAX_MS) →
       (eyeStep st ear now earClosed earOpen).blinkCount = st.blinkCount + 1
       ∧ (eyeStep st ear now earClosed earOpen).blinkDetected = true)
    ∧ ((now - st.lastChangeTs < LONG_BLINK_MS ∨ LONG_BLINK_MAX_MS ≤ now - st.lastChangeTs) →
       (eyeStep st ear now earClosed earOpen).blinkCount = st.blinkCount) := by
  unfold eyeStep
  rw [hopens, hclosed]
  simp only [Bool.false_eq_true, ne_eq, not_false_eq_true, if_true, if_pos rfl]
  constructor
  · intro hdur
    rw [if_pos hdur]
    exact ⟨rfl, rfl⟩
  · intro hdur
    rw [if_neg (by omega)]

/-- Witness for C2: a concrete closed→open transition after 300 ms
increments the counter from 0 to 1 and raises the flag. -/
theorem C2_witness :
    (eyeStep ⟨true, 0, 0, false⟩ 1 300 (13 / 50) (3 / 10)).blinkCount
        = (⟨true, 0, 0, false⟩ : EyeState).blinkCount + 1
    ∧ (eyeStep ⟨true, 0, 0, false⟩ 1 300 (13 / 50) (3 / 10)).blinkDetected = true :=
  (C2_blink_window ⟨true, 0, 0, false⟩ 1 300 (13 / 50) (3 / 10) rfl
    (by norm_num [classifyClosed])).1 (by decide)

/-! ## C4: calibration threshold derivation -/

/-- C4.  `stopCalibration` with at least one collected sample sets
`earClosedThreshold = max(0.12, mean·0.6)` and
`earOpenThreshold = max(earClosedThreshold + 0.04, mean·0.75)` and reports
progress 1; with zero samples it leaves both thresholds unchanged and
still reports progress 1. -/
theorem C4_stopCalibration (st : CalibState) :
    (st.samples ≠ [] →
       (stopCalibration st).earClosedRef = max 0.12 (meanQ st.samples * 0.6)
       ∧ (stopCalibration st).earOpenRef
           = max ((stopCalibration st).earClosedRef + 0.04) (meanQ st.samples * 0.75)
       ∧ (stopCalibration st).progress = 1)
    ∧ (st.samples = [] →
       (stopCalibration st).earClosedRef = st.earClosedRef
       ∧ (stopCalibration st).earOpenRef = st.earOpenRef
       ∧ (stopCalibration st).progress = 1) := by
  constructor
  · intro hne
    have hlen : st.samples.length ≠ 0 := by
      simpa [List.length_eq_zero] using hne
    simp [stopCalibration, hlen, meanQ]
  · intro hemp
    simp [stopCalibration, hemp]

/-- Witness for C4 on ten samples of 0.3: thresholds become
`max(0.12, 0.18) = 0.18` and `max(0.22, 0.225) = 0.225`, progress 1. -/
theorem C4_witness :
    ((stopCalibration calibExample).earClosedRef
        = max 0.12 (meanQ calibExample.samples * 0.6)
     ∧ (stopCalibration calibExample).earOpenRef
        = max ((stopCalibration calibExample).earClosedRef + 0.04)
            (meanQ calibExample.samples * 0.75)
     ∧ (stopCalibration calibExample).progress = 1)
    ∧ (stopCalibration calibExample).earClosedRef = 0.18
    ∧ (stopCalibration calibExample).earOpenRef = 0.225 :=
  ⟨(C4_stopCalibration calibExample).1 (by norm_num [calibExample]),
   by norm_num [stopCalibration, calibExample, List.sum_replicate, max_def],
   by norm_num [stopCalibration, calibExample, List.sum_replicate, max_def]⟩

/-! ## C8: EMA convergence under a constant raw input -/

/-- C8.  Under a constant raw input `r ∈ [0,1]`, the smoothed-score
sequence `score_{n+1} = score_n·0.4 + r·0.6` satisfies
`|score_n - r| = 0.4^n · |score_0 - r|` for every `n` and converges to `r`
as the tick count tends to infinity. -/
theorem C8_ema_convergence (r s0 : ℚ) (_h0 : 0 ≤ r) (_h1 : r ≤ 1) :
    (∀ n : ℕ, |emaIter r s0 n - r| = (0.4 : ℚ) ^ n * |s0 - r|)
    ∧ Filter.Tendsto (fun n : ℕ => ((emaIter r s0 n : ℚ) : ℝ))
        Filter.atTop (nhds (r : ℝ)) := by
  have hstep : ∀ x : ℚ, emaStep x r - r = (x - r) * 0.4 := by
    intro x
    unfold emaStep SMOOTH_ALPHA
    ring
  have hmain : ∀ n : ℕ, |emaIter r s0 n - r| = (0.4 : ℚ) ^ n * |s0 - r| := by
    intro n
    induction n with
    | zero => simp [emaIter]
    | succ k ih =>
        show |emaStep (emaIter r s0 k) r - r| = _
        rw [hstep, abs_mul, ih, abs_of_pos (by norm_num : (0 : ℚ) < 0.4)]
        ring
  refine ⟨hmain, ?_⟩
  have hcast : ∀ n : ℕ, |((emaIter r s0 n : ℚ) : ℝ) - (r : ℝ)|
      = (0.4 : ℝ) ^ n * |((s0 : ℚ) : ℝ) - (r : ℝ)| := by
    intro n
    have := hmain n
    have := congrArg (fun q : ℚ => (q : ℝ)) this
    push_cast at this
    convert this using 2
  rw [tendsto_iff_dist_tendsto_zero]
  have hlim : Filter.Tendsto
      (fun n : ℕ => (0.4 : ℝ) ^ n * |((s0 : ℚ) : ℝ) - (r : ℝ)|)
      Filter.atTop (nhds 0) := by
    have := (tendsto_pow_atTop_nhds_zero_of_lt_one
      (by norm_num : (0 : ℝ) ≤ 0.4) (by norm_num : (0.4 : ℝ) < 1)).mul_const
      |((s0 : ℚ) : ℝ) - (r : ℝ)|
    simpa using this
  refine hlim.congr fun n => ?_
  rw [Real.dist_eq, hcast n]

/-- Witness for C8 at `r = 1/2`, `s0 = 0`. -/
theorem C8_witness :
    (∀ n : ℕ, |emaIter (1 / 2) 0 n - 1 / 2| = (0.4 : ℚ) ^ n * |0 - 1 / 2|)
    ∧ Filter.Tendsto (fun n : ℕ => ((emaIter (1 / 2) 0 n : ℚ) : ℝ))
        Filter.atTop (nhds ((1 / 2 : ℚ) : ℝ)) :=
  C8_ema_convergence (1 / 2) 0 (by norm_num) (by norm_num)

/-! ## C9: the published score stays in [0,1] even for non-finite inputs -/

/-- C9.  A non-finite weighted sum (any non-finite component) is replaced
by 0 before clamping and smoothing, the clamped raw score always lies in
[0,1], and the smoothed score obtained by folding fusion ticks from the
initial score 0 over any input sequence stays in [0,1]. -/
theorem C9_score_in_unit_interval :
    fusionRawScore none = 0
    ∧ (∀ p m h s : Option ℚ, fusionRawScore (jsWeightedSum none p m h s) = 0)
    ∧ (∀ o : Option ℚ, 0 ≤ fusionRawScore o ∧ fusionRawScore o ≤ 1)
    ∧ (∀ inputs : List (Option ℚ × Option ℚ × Option ℚ × Option ℚ × Option ℚ),
        0 ≤ fusionRun inputs ∧ fusionRun inputs ≤ 1) := by
  have hraw : ∀ o : Option ℚ, 0 ≤ fusionRawScore o ∧ fusionRawScore o ≤ 1 :=
    fun o => ⟨clamp01_nonneg _, clamp01_le_one _⟩
  have hnone : fusionRawScore none = 0 := by
    simp [fusionRawScore, clamp01]
  refine ⟨hnone, fun p m h s => ?_, hraw, fun inputs => ?_⟩
  · simp [jsWeightedSum, hnone]
  · have hfold : ∀ (l : List (Option ℚ × Option ℚ × Option ℚ × Option ℚ × Option ℚ))
        (sc : ℚ), 0 ≤ sc → sc ≤ 1 →
        0 ≤ l.foldl (fun sc i => fusionTick sc i.1 i.2.1 i.2.2.1 i.2.2.2.1 i.2.2.2.2) sc
        ∧ l.foldl (fun sc i => fusionTick sc i.1 i.2.1 i.2.2.1 i.2.2.2.1 i.2.2.2.2) sc ≤ 1 := by
      intro l
      induction l with
      | nil => intro sc h0 h1; exact ⟨h0, h1⟩
      | cons a t ih =>
          intro sc h0 h1
          have hr := hraw (jsWeightedSum a.1 a.2.1 a.2.2.1 a.2.2.2.1 a.2.2.2.2)
          have hnext := emaStep_mem sc _ h0 h1 hr.1 hr.2
          exact ih _ hnext.1 hnext.2
    exact hfold inputs 0 le_rfl (by norm_num)

/-! ## C3: PERCLOS window invariant and ratio -/

/-- On a buffer whose timestamps are nondecreasing, the front-pruning loop
leaves only entries with `ts ≥ cutoff`. -/
theorem dropWhile_ts_ge (c : ℤ) :
    ∀ l : List (ℤ × Bool), List.Pairwise (fun a b => a.1 ≤ b.1) l →
      ∀ e ∈ l.dropWhile (fun x => x.1 < c), c ≤ e.1 := by
  intro l
  induction l with
  | nil => intro _ e he; simp at he
  | cons a t ih =>
      intro hpw e he
      rw [List.pairwise_cons] at hpw
      rw [List.dropWhile_cons] at he
      by_cases hc : a.1 < c
      · rw [if_pos (by simpa using hc)] at he
        exact ih hpw.2 e he
      · rw [if_neg (by simpa using hc)] at he
        rcases List.mem_cons.mp he with rfl | hmem
        · exact le_of_not_lt hc
        · exact le_trans (le_of_not_lt hc) (hpw.1 e hmem)

/-- `closedSum` (the fold of line 369) counts exactly the closed entries. -/
theorem closedSum_eq_filter_length (l : List (ℤ × Bool)) :
    closedSum l = (l.filter (fun e => e.2)).length := by
  have hgen : ∀ (t : List (ℤ × Bool)) (acc : ℕ),
      t.foldl (fun s e => s + (if e.2 then 1 else 0)) acc
        = acc + (t.filter (fun e => e.2)).length := by
    intro t
    induction t with
    | nil => intro acc; simp
    | cons a t ih =>
        intro acc
        rw [List.foldl_cons, ih, List.filter_cons]
        by_cases ha : a.2
        · simp [ha]
          omega
        · simp [ha]
  unfold closedSum
  rw [hgen]
  omega

/-- C3.  After a tick (push then prune) on a chronologically ordered buffer,
every retained entry satisfies `ts ≥ now - 30000`, and the published PERCLOS
ratio equals the number of closed retained samples divided by
`max 1 (number of retained samples)`. -/
theorem C3_perclos_window (buf : List (ℤ × Bool)) (now : ℤ) (closed : Bool)
    (hsorted : List.Pairwise (fun a b => a.1 ≤ b.1) (buf ++ [(now, closed)])) :
    (∀ e ∈ perclosStep buf now closed, now - 30000 ≤ e.1)
    ∧ perclosRatio (perclosStep buf now closed)
        = (((perclosStep buf now closed).filter (fun e => e.2)).length : ℚ)
          / ((max 1 (perclosStep buf now closed).length : ℕ) : ℚ) := by
  constructor
  · intro e he
    have := dropWhile_ts_ge (now - PERCLOS_WINDOW_MS) (buf ++ [(now, closed)]) hsorted e
      (by simpa [perclosStep, pruneWindow] using he)
    simpa [PERCLOS_WINDOW_MS] using this
  · unfold perclosRatio
    rw [closedSum_eq_filter_length]

/-- Witness for C3: ten retained samples (pushed at `now = 9000`, all within
the 30 s window), three of them closed, give ratio 3/10. -/
theorem C3_witness :
    ((∀ e ∈ perclosStep perclosExampleBuf 9000 false, 9000 - 30000 ≤ e.1)
     ∧ perclosRatio (perclosStep perclosExampleBuf 9000 false)
         = (((perclosStep perclosExampleBuf 9000 false).filter (fun e => e.2)).length : ℚ)
           / ((max 1 (perclosStep perclosExampleBuf 9000 false).length : ℕ) : ℚ))
    ∧ perclosRatio (perclosStep perclosExampleBuf 9000 false) = 3 / 10 := by
  refine ⟨C3_perclos_window perclosExampleBuf 9000 false (by decide), ?_⟩
  norm_num [perclosRatio, perclosStep, pruneWindow, perclosExampleBuf, closedSum,
    PERCLOS_WINDOW_MS]

/-! ## C5: the periodicity test -/

theorem varianceQ_nonneg (l : List ℚ) : 0 ≤ varianceQ l := by
  unfold varianceQ
  split
  · exact le_rfl
  · refine div_nonneg (List.sum_nonneg ?_) (by positivity)
    intro x hx
    rcases List.mem_map.mp hx with ⟨a, _, rfl⟩
    positivity

/-- The embedded squared comparison agrees with the source's
`std ≤ maxIntervalStdMs` comparison, `std` being the real square root of
the variance. -/
theorem sqrt_varianceQ_le_iff (l : List ℚ) (b : ℚ) (hb : 0 ≤ b) :
    Real.sqrt ((varianceQ l : ℚ) : ℝ) ≤ (b : ℝ) ↔ varianceQ l ≤ b ^ 2 := by
  rw [Real.sqrt_le_left (by exact_mod_cast hb)]
  constructor <;> intro h <;> exact_mod_cast h

/-- C5.  The periodicity test accepts iff there are at least 3 accepted
peaks, the standard deviation of the inter-peak intervals is at most
500 ms, and the mean interval lies in [200 ms, 2000 ms]; four peaks at
intervals 500 ms, 520 ms, 480 ms are periodic, and fewer than 3 peaks are
never periodic. -/
theorem C5_periodicity :
    (∀ peaks : List Peak,
       (evaluatePeriodicity peaks 3 500).1 = true
         ↔ 3 ≤ peaks.length
           ∧ Real.sqrt ((varianceQ (intervalsOf peaks) : ℚ) : ℝ) ≤ 500
           ∧ 200 ≤ meanQ (intervalsOf peaks) ∧ meanQ (intervalsOf peaks) ≤ 2000)
    ∧ intervalsOf fourPeaks = [500, 520, 480]
    ∧ (evaluatePeriodicity fourPeaks 3 500).1 = true
    ∧ (∀ peaks : List Peak, peaks.length < 3 →
        (evaluatePeriodicity peaks 3 500).1 = false) := by
  have hiff : ∀ peaks : List Peak,
      (evaluatePeriodicity peaks 3 500).1 = true
        ↔ 3 ≤ peaks.length
          ∧ Real.sqrt ((varianceQ (intervalsOf peaks) : ℚ) : ℝ) ≤ 500
          ∧ 200 ≤ meanQ (intervalsOf peaks) ∧ meanQ (intervalsOf peaks) ≤ 2000 := by
    intro peaks
    have hsqrt := sqrt_varianceQ_le_iff (intervalsOf peaks) 500 (by norm_num)
    unfold evaluatePeriodicity
    by_cases hlen : peaks.length < 3
    · have h3 : ¬ 3 ≤ peaks.length := by omega
      simp [hlen, h3]
    · have h3 : 3 ≤ peaks.length := by omega
      rw [if_neg hlen]
      have hcast : ((500 : ℚ) : ℝ) = (500 : ℝ) := by norm_num
      rw [hcast] at hsqrt
      show (if varianceQ (intervalsOf peaks) ≤ 500 ^ 2
            ∧ 200 ≤ meanQ (intervalsOf peaks) ∧ meanQ (intervalsOf peaks) ≤ 2000
          then ((true : Bool), intervalsOf peaks)
          else ((false : Bool), intervalsOf peaks)).1 = true ↔ _
      split
      · rename_i hcond
        simp only [true_iff]
        exact ⟨h3, hsqrt.mpr hcond.1, hcond.2.1, hcond.2.2⟩
      · rename_i hcond
        simp only [Bool.false_eq_true, false_iff]
        intro hcontra
        exact hcond ⟨hsqrt.mp hcontra.2.1, hcontra.2.2.1, hcontra.2.2.2⟩
  have hint : intervalsOf fourPeaks = [500, 520, 480] := by
    norm_num [intervalsOf, fourPeaks]
  refine ⟨hiff, hint, ?_, ?_⟩
  · rw [hiff fourPeaks, hint]
    refine ⟨by norm_num [fourPeaks], ?_, by norm_num [meanQ], by norm_num [meanQ]⟩
    have hvar : varianceQ [500, 520, 480] ≤ (500 : ℚ) ^ 2 := by
      norm_num [varianceQ, meanQ]
    rw [Real.sqrt_le_left (by norm_num : (0 : ℝ) ≤ 500)]
    exact_mod_cast hvar
  · intro peaks hlen
    simp [evaluatePeriodicity, hlen]

/-- Witness for C5: a single isolated peak is never periodic. -/
theorem C5_witness : (evaluatePeriodicity [⟨1, 0, 20⟩] 3 500).1 = false :=
  C5_periodicity.2.2.2 [⟨1, 0, 20⟩] (by norm_num)

/-! ## C10: detected peaks are interior samples -/

/-- One loop iteration either keeps the accumulator or appends a peak at
the current index. -/
theorem peakFoldStep_mem (values : List ℚ) (times : List ℤ) (minAmp : ℚ)
    (minSeparationMs : ℤ) (pStd : ℚ) (med varv : ℚ) (acc : List Peak) (i : ℕ)
    (pk : Peak)
    (h : pk ∈ peakFoldStep values times minAmp minSeparationMs pStd med varv acc i) :
    pk ∈ acc ∨ pk.idx = i := by
  unfold peakFoldStep at h
  split at h
  · -- acc.getLast? = some last
    dsimp only at h
    split at h
    · split at h
      · exact Or.inl h
      · split at h
        · rcases List.mem_append.mp h with hmem | hmem
          · exact Or.inl hmem
          · right
            rw [List.mem_singleton] at hmem
            rw [hmem]
        · exact Or.inl h
    · exact Or.inl h
  · -- acc.getLast? = none
    dsimp only at h
    split at h
    · split at h
      · rcases List.mem_append.mp h with hmem | hmem
        · exact Or.inl hmem
        · right
          rw [List.mem_singleton] at hmem
          rw [hmem]
      · exact Or.inl h
    · exact Or.inl h

/-- Folding the loop body over any index list whose members are interior
indices yields only peaks at interior indices. -/
theorem peaks_fold_bounded (values : List ℚ) (times : List ℤ) (minAmp : ℚ)
    (minSeparationMs : ℤ) (pStd : ℚ) (med varv : ℚ) :
    ∀ (l : List ℕ) (acc : List Peak),
      (∀ pk ∈ acc, 1 ≤ pk.idx ∧ pk.idx + 1 < values.length) →
      (∀ i ∈ l, 1 ≤ i ∧ i + 1 < values.length) →
      ∀ pk ∈ l.foldl (peakFoldStep values times minAmp minSeparationMs pStd med varv) acc,
        1 ≤ pk.idx ∧ pk.idx + 1 < values.length := by
  intro l
  induction l with
  | nil => intro acc hacc _ pk hpk; exact hacc pk hpk
  | cons j t ih =>
      intro acc hacc hl pk hpk
      rw [List.foldl_cons] at hpk
      refine ih _ ?_ (fun i hi => hl i (List.mem_cons_of_mem j hi)) pk hpk
      intro q hq
      rcases peakFoldStep_mem values times minAmp minSeparationMs pStd med varv acc j q hq
        with hmem | hidx
      · exact hacc q hmem
      · rw [hidx]
        exact hl j (List.mem_cons_self j t)

/-- C10.  `detectPeaks` only ever accepts interior samples (index at least
1 and strictly before the last index); consequently an envelope with fewer
than 3 samples yields no peaks. -/
theorem C10_detectPeaks_interior (values : List ℚ) (times : List ℤ)
    (minAmp : ℚ) (minSeparationMs : ℤ) (pStd : ℚ) :
    (∀ pk ∈ detectPeaks values times minAmp minSeparationMs pStd,
       1 ≤ pk.idx ∧ pk.idx + 1 < values.length)
    ∧ (values.length < 3 → detectPeaks values times minAmp minSeparationMs pStd = []) := by
  constructor
  · intro pk hpk
    unfold detectPeaks at hpk
    by_cases h0 : values.length = 0
    · rw [if_pos h0] at hpk
      simp at hpk
    · rw [if_neg h0] at hpk
      refine peaks_fold_bounded values times minAmp minSeparationMs pStd _ _
        (List.range' 1 (values.length - 2)) [] (by simp) ?_ pk hpk
      intro i hi
      rw [List.mem_range'_1] at hi
      omega
  · intro h3
    unfold detectPeaks
    by_cases h0 : values.length = 0
    · rw [if_pos h0]
    · rw [if_neg h0]
      have h2 : values.length - 2 = 0 := by omega
      rw [h2]
      rfl

/-- Witness for C10: on the envelope `[0, 20, 0]` the single detected peak
sits at the interior index 1 of the 3-sample envelope. -/
theorem C10_witness :
    1 ≤ (⟨1, 100, 20⟩ : Peak).idx
    ∧ (⟨1, 100, 20⟩ : Peak).idx + 1 < ([0, 20, 0] : List ℚ).length :=
  (C10_detectPeaks_interior [0, 20, 0] [0, 100, 200] 14 150 1).1 ⟨1, 100, 20⟩
    (by norm_num [detectPeaks, peakFoldStep, prominenceOk, medianQ, meanQ, varianceQ,
      List.range', List.insertionSort, List.orderedInsert])

/-! ## C7: send retry policy -/

theorem sendLoop_attempts_le (outcome : ℕ → AttemptOutcome) :
    ∀ (remaining i wait : ℕ), (sendLoop outcome i wait remaining).attemptsMade ≤ remaining := by
  intro remaining
  induction remaining with
  | zero => intro i wait; simp [sendLoop]
  | succ r ih =>
      intro i wait
      unfold sendLoop
      cases outcome i <;> simp only
      · omega
      · exact Nat.succ_le_succ (ih (i + 1) (wait * 2))
      · omega
      · exact Nat.succ_le_succ (ih (i + 1) (wait * 2))

theorem sendLoop_waits_geometric (outcome : ℕ → AttemptOutcome) :
    ∀ (remaining i wait : ℕ),
      (sendLoop outcome i wait remaining).waits
        = (List.range (sendLoop outcome i wait remaining).waits.length).map
            (fun j => wait * 2 ^ j) := by
  intro remaining
  induction remaining with
  | zero => intro i wait; simp [sendLoop]
  | succ r ih =>
      intro i wait
      unfold sendLoop
      cases outcome i <;> simp only
      · simp
      · rw [ih (i + 1) (wait * 2)]
        simp only [List.length_cons, List.length_map, List.length_range,
          List.range_succ_eq_map, List.map_cons, List.map_map]
        congr 1
        · simp
        · refine List.map_congr_left fun j _ => ?_
          simp only [Function.comp_apply, pow_succ]
          ring
      · simp
      · rw [ih (i + 1) (wait * 2)]
        simp only [List.length_cons, List.length_map, List.length_range,
          List.range_succ_eq_map, List.map_cons, List.map_map]
        congr 1
        · simp
        · refine List.map_congr_left fun j _ => ?_
          simp only [Function.comp_apply, pow_succ]
          ring

theorem sendLoop_abort (outcome : ℕ → AttemptOutcome) :
    ∀ (k i wait remaining : ℕ), k < remaining →
      (∀ j, j < k → outcome (i + j) = AttemptOutcome.httpFail
        ∨ outcome (i + j) = AttemptOutcome.netError) →
      outcome (i + k) = AttemptOutcome.abortError →
      (sendLoop outcome i wait remaining).result = false
      ∧ (sendLoop outcome i wait remaining).attemptsMade = k + 1 := by
  intro k
  induction k with
  | zero =>
      intro i wait remaining hrem _ habort
      obtain ⟨r, rfl⟩ : ∃ r, remaining = r + 1 :=
        ⟨remaining - 1, by omega⟩
      rw [Nat.add_zero] at habort
      unfold sendLoop
      rw [habort]
      exact ⟨rfl, rfl⟩
  | succ k ih =>
      intro i wait remaining hrem hfail habort
      obtain ⟨r, rfl⟩ : ∃ r, remaining = r + 1 :=
        ⟨remaining - 1, by omega⟩
      have h0 : outcome (i + 0) = AttemptOutcome.httpFail
          ∨ outcome (i + 0) = AttemptOutcome.netError := hfail 0 (by omega)
      rw [Nat.add_zero] at h0
      have hfail' : ∀ j, j < k → outcome (i + 1 + j) = AttemptOutcome.httpFail
          ∨ outcome (i + 1 + j) = AttemptOutcome.netError := by
        intro j hj
        have := hfail (j + 1) (by omega)
        rw [show i + (j + 1) = i + 1 + j by omega] at this
        exact this
      have habort' : outcome (i + 1 + k) = AttemptOutcome.abortError := by
        rw [show i + 1 + k = i + (k + 1) by omega]
        exact habort
      have hk := ih (i + 1) (wait * 2) r (by omega) hfail' habort'
      unfold sendLoop
      rcases h0 with h0 | h0 <;> rw [h0] <;> simp only <;>
        exact ⟨hk.1, by rw [hk.2]⟩

/-- C7.  `sendToServer` makes at most 3 attempts; the waits slept between
attempts are 300 ms doubling after each failure; an abort returns `false`
at once with no further attempt; and an offline browser skips sending
entirely, with zero attempts and no waits. -/
theorem C7_send_policy :
    (∀ outcome : ℕ → AttemptOutcome,
       (sendToServer true true outcome 3).attemptsMade ≤ 3)
    ∧ (∀ outcome : ℕ → AttemptOutcome,
       (sendToServer true true outcome 3).waits
         = (List.range (sendToServer true true outcome 3).waits.length).map
             (fun j => 300 * 2 ^ j))
    ∧ (∀ (outcome : ℕ → AttemptOutcome) (k : ℕ), k < 3 →
       (∀ j, j < k → outcome j = AttemptOutcome.httpFail
         ∨ outcome j = AttemptOutcome.netError) →
       outcome k = AttemptOutcome.abortError →
       (sendToServer true true outcome 3).result = false
       ∧ (sendToServer true true outcome 3).attemptsMade = k + 1)
    ∧ (∀ (outcome : ℕ → AttemptOutcome) (attempts : ℕ),
       sendToServer true false outcome attempts
         = { result := false, attemptsMade := 0, waits := [] }) := by
  refine ⟨fun outcome => ?_, fun outcome => ?_, fun outcome k hk hfail habort => ?_,
    fun outcome attempts => ?_⟩
  · simpa [sendToServer] using sendLoop_attempts_le outcome 3 0 300
  · simpa [sendToServer] using sendLoop_waits_geometric outcome 3 0 300
  · have := sendLoop_abort outcome k 0 300 3 hk (by simpa using hfail) (by simpa using habort)
    simpa [sendToServer] using this
  · simp [sendToServer]

/-- Witness for C7: an abort on the very first attempt returns `false`
after exactly one attempt. -/
theorem C7_witness :
    (sendToServer true true (fun _ => AttemptOutcome.abortError) 3).result = false
    ∧ (sendToServer true true (fun _ => AttemptOutcome.abortError) 3).attemptsMade = 0 + 1 :=
  C7_send_policy.2.2.1 (fun _ => AttemptOutcome.abortError) 0 (by decide)
    (fun j hj => absurd hj (by omega)) rfl

/-! ## C6: silence debounce -/

/-- One audio sampling tick preserves the silence invariant. -/
theorem silInv_step (secs dbThr : ℚ) (processed : List AudioSample) (st : SilenceState)
    (s : AudioSample) (hinv : SilInv secs dbThr processed st)
    (hle : ∀ a ∈ processed, a.now ≤ s.now) :
    SilInv secs dbThr (processed ++ [s]) (silenceStep secs dbThr st s) := by
  by_cases hc : silentCond dbThr s = true
  · cases hstart : st.silenceStart with
    | none =>
        have hsil : st.isSilent = false := hinv.1 hstart
        simp only [silenceStep, hc, hstart, Option.getD_none, if_true]
        by_cases hel : secs * 1000 ≤ s.now - s.now
        · rw [if_pos hel]
          refine ⟨fun h => by simp at h, fun t ht => ?_⟩
          have htt := Option.some.inj ht
          subst htt
          refine ⟨processed, [s], rfl, by simp, ?_, by simp, ?_⟩
          · intro x hx
            rw [List.mem_singleton] at hx
            rw [hx]
            exact hc
          · intro _
            exact ⟨s, by simp, hel⟩
        · rw [if_neg hel]
          refine ⟨fun h => by simp at h, fun t ht => ?_⟩
          have htt := Option.some.inj ht
          subst htt
          refine ⟨processed, [s], rfl, by simp, ?_, by simp, ?_⟩
          · intro x hx
            rw [List.mem_singleton] at hx
            rw [hx]
            exact hc
          · intro hcontra
            rw [hsil] at hcontra
            simp at hcontra
    | some t₀ =>
        obtain ⟨p₁, p₂, hproc, hne, hallsil, hhead, hspan⟩ := hinv.2 t₀ hstart
        obtain ⟨a, p₂', rfl⟩ := List.exists_cons_of_ne_nil hne
        have hanow : a.now = t₀ := by simpa using hhead
        simp only [silenceStep, hc, hstart, Option.getD_some, if_true]
        by_cases hel : secs * 1000 ≤ s.now - t₀
        · rw [if_pos hel]
          refine ⟨fun h => by simp at h, fun t ht => ?_⟩
          have htt := Option.some.inj ht
          subst htt
          refine ⟨p₁, (a :: p₂') ++ [s], by rw [hproc, List.append_assoc], by simp,
            ?_, by simpa using hanow, ?_⟩
          · intro x hx
            rcases List.mem_append.mp hx with hx | hx
            · exact hallsil x hx
            · rw [List.mem_singleton] at hx
              rw [hx]
              exact hc
          · intro _
            exact ⟨s, by rw [List.getLast?_concat], hel⟩
        · rw [if_neg hel]
          refine ⟨fun h => by simp at h, fun t ht => ?_⟩
          have htt := Option.some.inj ht
          subst htt
          refine ⟨p₁, (a :: p₂') ++ [s], by rw [hproc, List.append_assoc], by simp,
            ?_, by simpa using hanow, ?_⟩
          · intro x hx
            rcases List.mem_append.mp hx with hx | hx
            · exact hallsil x hx
            · rw [List.mem_singleton] at hx
              rw [hx]
              exact hc
          · intro hsil2
            obtain ⟨l₀, hl₀, hspan₀⟩ := hspan hsil2
            have hl₀mem : l₀ ∈ (a :: p₂') := List.mem_of_getLast?_eq_some hl₀
            have hl₀proc : l₀ ∈ processed := by
              rw [hproc]
              exact List.mem_append.mpr (Or.inr hl₀mem)
            have hlast : l₀.now ≤ s.now := hle l₀ hl₀proc
            exact ⟨s, by rw [List.getLast?_concat], by linarith⟩
  · have hcf : silentCond dbThr s = false := by
      cases hval : silentCond dbThr s
      · rfl
      · exact absurd hval hc
    simp only [silenceStep, hcf, Bool.false_eq_true, if_false]
    exact ⟨fun _ => rfl, fun t ht => by simp at ht⟩

/-- Folding audio ticks over chronologically ordered samples preserves the
silence invariant. -/
theorem silInv_run (secs dbThr : ℚ) :
    ∀ (rest processed : List AudioSample) (st : SilenceState),
      SilInv secs dbThr processed st →
      List.Pairwise (fun a b => a.now ≤ b.now) (processed ++ rest) →
      SilInv secs dbThr (processed ++ rest)
        (rest.foldl (silenceStep secs dbThr) st) := by
  intro rest
  induction rest with
  | nil =>
      intro processed st hinv _
      simpa using hinv
  | cons s rest' ih =>
      intro processed st hinv hpw
      have hle : ∀ a ∈ processed, a.now ≤ s.now := by
        intro a ha
        exact (List.pairwise_append.mp hpw).2.2 a ha s (List.mem_cons_self s rest')
      have hstep := silInv_step secs dbThr processed st s hinv hle
      have hpw' : List.Pairwise (fun a b => a.now ≤ b.now) ((processed ++ [s]) ++ rest') := by
        rw [List.append_assoc, List.singleton_append]
        exact hpw
      have hres := ih (processed ++ [s]) (silenceStep secs dbThr st s) hstep hpw'
      rw [List.append_assoc, List.singleton_append] at hres
      exact hres

/-- C6.  Over any chronologically ordered run of audio samples, `isSilent`
is raised only after a nonempty all-silent suffix spanning at least
`silenceSeconds·1000 = 5000` ms (thresholds at their defaults −55 dB and
5 s), and a single non-silent sample resets the published flag and the
silence timer at once. -/
theorem C6_silence_debounce (samples : List AudioSample)
    (hsort : List.Pairwise (fun a b => a.now ≤ b.now) samples) :
    ((silenceRun 5 (-55) samples).isSilent = true →
       ∃ p₁ p₂ : List AudioSample, samples = p₁ ++ p₂ ∧ p₂ ≠ []
         ∧ (∀ s ∈ p₂, silentCond (-55) s = true)
         ∧ ∃ firstS lastS : AudioSample, p₂.head? = some firstS
             ∧ p₂.getLast? = some lastS ∧ 5 * 1000 ≤ lastS.now - firstS.now)
    ∧ (∀ (st : SilenceState) (s : AudioSample), silentCond (-55) s = false →
        silenceStep 5 (-55) st s = { silenceStart := none, isSilent := false }) := by
  constructor
  · intro hsil
    have hinv0 : SilInv 5 (-55) [] { silenceStart := none, isSilent := false } :=
      ⟨fun _ => rfl, fun t ht => by simp at ht⟩
    have hinv := silInv_run 5 (-55) samples [] { silenceStart := none, isSilent := false }
      hinv0 (by simpa using hsort)
    rw [List.nil_append] at hinv
    have hinv' : SilInv 5 (-55) samples (silenceRun 5 (-55) samples) := hinv
    cases hstart : (silenceRun 5 (-55) samples).silenceStart with
    | none =>
        rw [hinv'.1 hstart] at hsil
        simp at hsil
    | some t =>
        obtain ⟨p₁, p₂, hproc, hne, hallsil, hhead, hspan⟩ := hinv'.2 t hstart
        obtain ⟨lastS, hlast, hspan'⟩ := hspan hsil
        obtain ⟨a, p₂', rfl⟩ := List.exists_cons_of_ne_nil hne
        have hanow : a.now = t := by simpa using hhead
        exact ⟨p₁, a :: p₂', hproc, hne, hallsil, a, lastS, rfl, hlast,
          by rw [hanow]; exact hspan'⟩
  · intro st s hcf
    simp [silenceStep, hcf]

/-- Witness for C6: three silent samples at 0, 2500 and 5000 ms raise
`isSilent`, and the theorem exhibits the all-silent suffix spanning
5000 ms. -/
theorem C6_witness :
    ∃ p₁ p₂ : List AudioSample, silenceExample = p₁ ++ p₂ ∧ p₂ ≠ []
      ∧ (∀ s ∈ p₂, silentCond (-55) s = true)
      ∧ ∃ firstS lastS : AudioSample, p₂.head? = some firstS
          ∧ p₂.getLast? = some lastS ∧ 5 * 1000 ≤ lastS.now - firstS.now :=
  (C6_silence_debounce silenceExample
      (by norm_num [silenceExample, List.pairwise_cons])).1
    (by norm_num [silenceRun, silenceExample, silenceStep, silentCond])

end DriverMonitoring
